import Mathlib

/-!
Shallow embedding of the link-index engine of the `vscode-regex-anchor`
extension (src/linkIndexer.ts, src/linkDecorator.ts, src/extension.ts) and
proofs about its behaviour.

Modelling conventions:
* A `vscode.Location` value is a file path, a line number and a column span.
  The JavaScript runtime additionally distinguishes *objects*: two location
  objects with equal contents are different elements of a JS `Set`.  `LocObj`
  therefore carries an allocation identifier `oid` next to the value; a JS
  `Set<vscode.Location>` is a list of `LocObj` deduplicated by `oid`.
* `Map<string, Set<Location>>` is an insertion-ordered association list.
* The regex engine and the glob resolver are host services; they enter the
  model as oracle functions.  `new RegExp(p)` either throws (`none`) or
  yields an exec function; for a non-global regex, `exec(line)` returns the
  first match of the line or `null`, which is exactly the `Option JsMatch`
  shape.  A thrown error anywhere is modelled by `none` results, matching
  the `try`/`catch` blocks of the source that swallow and log them.
* `Promise.all` fan-out is modelled by processing descriptors and files in
  list order; only the insertion order (not the content) of the rebuilt
  index depends on this choice.  The interleaving-sensitive statement about
  rebuild generations is proved over arbitrary insertion orders.
* String lengths count characters rather than UTF-16 units; the difference
  is irrelevant to every property proved here.
-/

namespace RegexAnchor

/-- Value contents of a `vscode.Location` whose range lies on one line:
file path, line number, and column span. -/
structure Loc where
  path : String
  line : Nat
  startCol : Nat
  endCol : Nat
deriving DecidableEq, Repr

/-- A JavaScript `vscode.Location` *object*: its allocation identity `oid`
plus its value.  JS `Set` membership compares object identities. -/
structure LocObj where
  oid : Nat
  val : Loc
deriving DecidableEq, Repr

/-- The indexer's `Map<string, Set<vscode.Location>>`: an insertion-ordered
association list; each value is a JS `Set`, i.e. an `oid`-deduplicated
insertion-ordered list. -/
abbrev LinkIndex : Type := List (String × List LocObj)

/-- JS `Map.prototype.has`. -/
def mapHas (m : LinkIndex) (k : String) : Bool :=
  m.any (fun p => p.1 = k)

/-- JS `Map.prototype.get` (`none` models `undefined`). -/
def mapGet (m : LinkIndex) (k : String) : Option (List LocObj) :=
  (m.find? (fun p => p.1 = k)).map (fun p => p.2)

/-- JS `Map.prototype.set`: replaces the value of an existing key in place,
otherwise appends the new binding. -/
def mapSet (m : LinkIndex) (k : String) (v : List LocObj) : LinkIndex :=
  if mapHas m k then m.map (fun p => if p.1 = k then (k, v) else p)
  else m ++ [(k, v)]

/-- JS `Set.prototype.add`: appends unless an object with the same identity
is already an element. -/
def setAdd (s : List LocObj) (x : LocObj) : List LocObj :=
  if s.any (fun y => y.oid = x.oid) then s else s ++ [x]

/-- `LinkIndexer.clearIndex`. -/
def clearIndex (_ : LinkIndex) : LinkIndex := []

/-- `LinkIndexer.addToIndex` (the `Map<string, Set>` version): create an
empty set for a missing key, then `add` the location object to the set. -/
def addToIndex (m : LinkIndex) (text : String) (loc : LocObj) : LinkIndex :=
  let m1 := if mapHas m text then m else mapSet m text []
  mapSet m1 text (setAdd ((mapGet m1 text).getD []) loc)

/-- `LinkIndexer.hasDestination`:
`linkIndex.has(text) && linkIndex.get(text)!.size > 0`. -/
def hasDestination (m : LinkIndex) (text : String) : Bool :=
  mapHas m text && ((mapGet m text).getD []).length > 0

/-- `LinkIndexer.getDestinations`:
`linkIndex.has(text) ? Array.from(linkIndex.get(text)!) : []`. -/
def getDestinations (m : LinkIndex) (text : String) : List LocObj :=
  if mapHas m text then (mapGet m text).getD [] else []

/-- Mutations the `LinkIndexer` can perform on its map: `clearIndex`, or
`addToIndex` of a freshly allocated location object holding value `v`. -/
inductive IndexOp where
  | clear : IndexOp
  | add (text : String) (v : Loc) : IndexOp
deriving DecidableEq, Repr

/-- Indexer state: the map plus the allocation counter handing out fresh
object identities (fresh JS objects never collide with existing ones). -/
structure IndexState where
  index : LinkIndex
  nextOid : Nat
deriving DecidableEq, Repr

/-- Apply one mutation. -/
def applyOp (s : IndexState) : IndexOp → IndexState
  | IndexOp.clear => { index := clearIndex s.index, nextOid := s.nextOid }
  | IndexOp.add text v =>
      { index := addToIndex s.index text { oid := s.nextOid, val := v },
        nextOid := s.nextOid + 1 }

/-- Apply a sequence of mutations in order. -/
def applyOps (s : IndexState) : List IndexOp → IndexState
  | [] => s
  | op :: ops => applyOps (applyOp s op) ops

/-- All (key, location value) entries currently stored in an index. -/
def indexEntries (m : LinkIndex) : List (String × Loc) :=
  m.flatMap (fun p => p.2.map (fun o => (p.1, o.val)))

/-- The empty indexer state at activation time. -/
def initialState : IndexState := { index := [], nextOid := 0 }

/-! ### Configuration data (package.json schema / src/types.ts) -/

/-- The optional fields of a `preview` object in the configuration. -/
structure PreviewPartial where
  linesBefore : Option Int
  linesAfter : Option Int
  hover : Option Bool
  editor : Option String
deriving DecidableEq, Repr

/-- A fully resolved preview configuration. -/
structure PreviewConfig where
  linesBefore : Int
  linesAfter : Int
  hover : Bool
  editor : Option String
deriving DecidableEq, Repr

/-- The decorator's `defaultConfig`: `{ linesBefore: 2, linesAfter: 2,
hover: true }`. -/
def defaultPreviewConfig : PreviewConfig :=
  { linesBefore := 2, linesAfter := 2, hover := true, editor := none }

/-- JS object spread `{ ...defaultConfig, ...matched.preview }`: fields
present in the partial object override the defaults. -/
def mergePreview (p : PreviewPartial) : PreviewConfig :=
  { linesBefore := p.linesBefore.getD 2,
    linesAfter := p.linesAfter.getD 2,
    hover := p.hover.getD true,
    editor := p.editor }

/-- A source descriptor (`SrcConf`): the empty string models a missing
`includes`/`patterns` field (both are falsy in JS). -/
structure SrcConf where
  includes : String
  patterns : String
deriving DecidableEq, Repr

/-- A destination descriptor (`DestConf`). -/
structure DestConf where
  includes : String
  patterns : String
  preview : Option PreviewPartial
deriving DecidableEq, Repr

/-- One rule of `regexAnchor.rules`.  `fromConfs` is the `from` field
(`from` is a Lean keyword); `none` models a missing or non-array field.
`destinations` is the *legacy* field name that the save handler in
`extension.ts` still reads; a rule written against the documented schema
has `destinations := none`. -/
structure Rule where
  fromConfs : Option (List SrcConf)
  toConfs : Option (List DestConf)
  destinations : Option (List DestConf)
deriving Repr

/-! ### Host-service oracles -/

/-- Result object of a successful non-global `RegExp.exec` on a line:
`match[0]` and `match[1]` (`none` models an undefined group 1). -/
structure JsMatch where
  matched : String
  group1 : Option String
deriving DecidableEq, Repr

/-- `new RegExp(p)`: `none` when the constructor throws on a malformed
pattern, otherwise the exec function returning the first match of a line. -/
abbrev RegexCompiler := String → Option (String → Option JsMatch)

/-- One destination file: its absolute path and its content as the list of
lines produced by `content.split(/\r?\n/)`; `none` when `fs.readFileSync`
throws (unreadable file). -/
structure FileData where
  path : String
  lines : Option (List String)

/-- Host environment of the indexer: the workspace folders — each folder is
its `glob.sync` resolver mapping an `includes` pattern to the matched file
list, `none` modelling a thrown glob error — plus the regex compiler.
`workspaceFolders = none` models `vscode.workspace.workspaceFolders` being
undefined (no workspace open). -/
structure Env where
  workspaceFolders : Option (List (String → Option (List FileData)))
  compile : RegexCompiler

/-- JS `String.prototype.trim`: strip leading and trailing whitespace.
Modelled over the character list so that it evaluates by kernel reduction;
the whitespace set agrees with JS on the characters that occur here. -/
def jsTrim (s : String) : String :=
  String.mk
    (((s.data.dropWhile Char.isWhitespace).reverse.dropWhile
        Char.isWhitespace).reverse)

/-- JS `match[1] || match[0]`: group 1 unless it is undefined *or* the
empty string (both falsy), in which case the whole match is used. -/
def jsOrCapture (g1 : Option String) (whole : String) : String :=
  match g1 with
  | some s => if s = "" then whole else s
  | none => whole

/-! ### `LinkIndexer` rebuild pipeline -/

/-- The body of the per-line callback of `LinkIndexer.processFile`: compile
the destination pattern (a throw is caught and the line skipped), take the
first match of the line if any, extract `match[1] || match[0]`, and if
`linkValue && linkValue.trim()` produce one entry whose key is the trimmed
value and whose location spans the line from column 0 to `line.length`. -/
def lineContrib (compile : RegexCompiler) (pat : String) (filePath : String)
    (lineIndex : Nat) (line : String) : List (String × Loc) :=
  match compile pat with
  | none => []
  | some exec =>
      match exec line with
      | none => []
      | some m =>
          let linkValue := jsOrCapture m.group1 m.matched
          if linkValue ≠ "" ∧ jsTrim linkValue ≠ "" then
            [(jsTrim linkValue,
              { path := filePath, line := lineIndex, startCol := 0,
                endCol := line.length })]
          else []

/-- `LinkIndexer.processFile`: an unreadable file is caught and skipped;
otherwise every line is processed with its index. -/
def processFile (compile : RegexCompiler) (f : FileData) (pat : String) :
    List (String × Loc) :=
  match f.lines with
  | none => []
  | some lines =>
      lines.enum.flatMap (fun p => lineContrib compile pat f.path p.1 p.2)

/-- `LinkIndexer.processDestination`: collect the files of every workspace
folder (a thrown glob error contributes no files for that folder), then
process each file.  Entries are listed in processing order. -/
def destEntries (env : Env) (d : DestConf) : List (String × Loc) :=
  match env.workspaceFolders with
  | none => []
  | some folders =>
      let allFiles := folders.flatMap (fun g => (g d.includes).getD [])
      allFiles.flatMap (fun f => processFile env.compile f d.patterns)

/-- The per-rule part of `LinkIndexer.rebuildIndex`: skip a rule whose `to`
is missing or not an array, and skip a destination descriptor missing
`includes` or `patterns`. -/
def ruleEntries (env : Env) (r : Rule) : List (String × Loc) :=
  match r.toConfs with
  | none => []
  | some ds =>
      ds.flatMap (fun d =>
        if d.includes = "" ∨ d.patterns = "" then [] else destEntries env d)

/-- All entries produced by one rebuild pass over the rules. -/
def rebuildEntries (env : Env) (rules : List Rule) : List (String × Loc) :=
  rules.flatMap (fun r => ruleEntries env r)

/-- Insert entries one by one via `addToIndex`, each wrapped in a freshly
allocated location object. -/
def buildIndexFrom : List (String × Loc) → Nat → LinkIndex → LinkIndex
  | [], _, idx => idx
  | e :: rest, n, idx =>
      buildIndexFrom rest (n + 1) (addToIndex idx e.1 { oid := n, val := e.2 })

/-- `LinkIndexer.rebuildIndex`: clear the index first, stop if there is no
workspace folder (undefined or empty list), otherwise repopulate. -/
def rebuildIndex (env : Env) (rules : List Rule) (idx : LinkIndex) :
    LinkIndex :=
  let cleared := clearIndex idx
  match env.workspaceFolders with
  | none => cleared
  | some [] => cleared
  | some (_ :: _) => buildIndexFrom (rebuildEntries env rules) 0 cleared

/-- The module-level `rebuildIndex` wrapper in `extension.ts`: it returns
without touching the indexer when `workspaceFolders` is undefined. -/
def controllerRebuild (env : Env) (rules : List Rule) (idx : LinkIndex) :
    LinkIndex :=
  match env.workspaceFolders with
  | none => idx
  | some _ => rebuildIndex env rules idx

/-- The mutation trace of one `LinkIndexer.rebuildIndex` call: the
synchronous clear always comes first, before any file fan-out. -/
def rebuildOps (env : Env) (rules : List Rule) : List IndexOp :=
  match env.workspaceFolders with
  | none => [IndexOp.clear]
  | some [] => [IndexOp.clear]
  | some (_ :: _) =>
      IndexOp.clear ::
        (rebuildEntries env rules).map (fun e => IndexOp.add e.1 e.2)

/-! ### Rebuild controller (`activate` in `extension.ts`) -/

/-- The save handler's destination-file test from `activate`: it reads
`link.destinations` — the legacy field — not `rule.to`:
`(link.destinations || []).some(dest => dest.includes &&
linkIndexer.isFileMatchGlob(document.fileName, dest.includes))`.
`mg` abstracts `isFileMatchGlob`. -/
def isDestinationFile (mg : String → String → Bool) (rules : List Rule)
    (fileName : String) : Bool :=
  rules.any (fun link =>
    (link.destinations.getD []).any (fun dest =>
      if dest.includes = "" then false else mg fileName dest.includes))

/-- The trigger condition claim C1 describes: the saved file's path matches
at least one destination descriptor glob across all rules, where destination
descriptors live in the `to` field of each rule. -/
def fileMatchesSomeDestGlob (mg : String → String → Bool) (rules : List Rule)
    (fileName : String) : Bool :=
  rules.any (fun r =>
    (r.toConfs.getD []).any (fun d =>
      if d.includes = "" then false else mg fileName d.includes))

/-- The events the controller subscribes to in `activate`. -/
inductive ControllerEvent where
  | configChange (affectsRegexAnchor : Bool)
  | activeEditorChange (hasEditor : Bool)
  | docChange (isActiveDoc : Bool)
  | save (fileName : String)
deriving Repr

/-- What a controller callback does: a full index rebuild (followed by a
refresh of the active editor), a document-local decoration refresh only, or
nothing. -/
inductive ControllerAction where
  | rebuild
  | refreshDecorations
  | noAction
deriving DecidableEq, Repr

/-- The decision table of the four subscriptions registered in `activate`. -/
def controllerAction (mg : String → String → Bool) (rules : List Rule) :
    ControllerEvent → ControllerAction
  | ControllerEvent.configChange b =>
      if b then ControllerAction.rebuild else ControllerAction.noAction
  | ControllerEvent.activeEditorChange h =>
      if h then ControllerAction.refreshDecorations
      else ControllerAction.noAction
  | ControllerEvent.docChange a =>
      if a then ControllerAction.refreshDecorations
      else ControllerAction.noAction
  | ControllerEvent.save f =>
      if isDestinationFile mg rules f then ControllerAction.rebuild
      else ControllerAction.noAction

/-! ### `LinkDecorator` resolution (src/linkDecorator.ts) -/

/-- One element of the match list produced by looping a global regex over
the document text: offset of the match, `match[0]`, and `match[1]`. -/
structure SrcMatch where
  index : Nat
  matched : String
  group1 : Option String
deriving DecidableEq, Repr

/-- `new RegExp(p, 'g')` combined with the exec loop: `none` when the
constructor throws, otherwise all matches of a text in document order. -/
abbrev GlobalRegexCompiler := String → Option (String → List SrcMatch)

/-- Host services used by the decorator. -/
structure DecoratorEnv where
  matchGlob : String → String → Bool
  compileG : GlobalRegexCompiler

/-- A text document: its file name and full text.  Match positions are kept
as character offsets into the text (`document.positionAt` converts them to
line/column pairs; no property proved here depends on that conversion). -/
structure Document where
  fileName : String
  text : String
deriving Repr

/-- `LinkDecorator.getRulesForThisSource`: the (rule, source descriptor)
pairs whose `includes` glob matches the document and whose fields are
present. -/
def getRulesForThisSource (mg : String → String → Bool) (rules : List Rule)
    (fileName : String) : List (Rule × SrcConf) :=
  rules.flatMap (fun rule =>
    match rule.fromConfs with
    | none => []
    | some fs =>
        fs.filterMap (fun fp =>
          if fp.includes = "" then none
          else if fp.patterns = "" then none
          else if mg fileName fp.includes then some (rule, fp)
          else none))

/-- `LinkDecorator.getPreviewConfig`: the first destination descriptor whose
glob matches the destination's file path supplies the preview overrides,
defaults otherwise. -/
def getPreviewConfig (mg : String → String → Bool) (destPath : String)
    (destConfs : List DestConf) : PreviewConfig :=
  match destConfs.find? (fun dc =>
      if dc.includes = "" then false else mg destPath dc.includes) with
  | some dc =>
      match dc.preview with
      | some p => mergePreview p
      | none => defaultPreviewConfig
  | none => defaultPreviewConfig

/-- `LinkDecorator.findDestination`: first destination of the queried key
paired with its preview configuration, or `null` when the key has no
destinations. -/
def findDestination (mg : String → String → Bool) (idx : LinkIndex)
    (linkText : String) (destConfs : List DestConf) :
    Option (LocObj × PreviewConfig) :=
  match getDestinations idx linkText with
  | [] => none
  | location :: _ =>
      some (location, getPreviewConfig mg location.val.path destConfs)

/-- The `src` half of a `Result`: match span (as offsets) and link text. -/
structure ResultSrc where
  startOff : Nat
  endOff : Nat
  linkText : String
deriving DecidableEq, Repr

/-- A `Result` of the decorator: source match plus resolved destination, or
`none` for a broken link. -/
structure LinkResult where
  src : ResultSrc
  dest : Option (LocObj × PreviewConfig)
deriving DecidableEq, Repr

/-- `LinkDecorator.findAllLinkMatches`: for every applicable (rule, source
descriptor) pair, loop the global source regex over the whole document text
(a compile throw degrades to no matches for that descriptor) and resolve
each match's `match[1] || match[0]` against the index. -/
def findAllLinkMatches (denv : DecoratorEnv) (idx : LinkIndex)
    (rules : List Rule) (doc : Document) : List LinkResult :=
  (getRulesForThisSource denv.matchGlob rules doc.fileName).flatMap
    (fun rf =>
      match denv.compileG rf.2.patterns with
      | none => []
      | some execAll =>
          (execAll doc.text).map (fun m =>
            let linkText := jsOrCapture m.group1 m.matched
            { src := { startOff := m.index,
                       endOff := m.index + m.matched.length,
                       linkText := linkText },
              dest := findDestination denv.matchGlob idx linkText
                        (rf.1.toConfs.getD []) }))

/-- `document.lineAt(i).text` over the model's line list (an out-of-range
index never occurs in the clipped loop of `getDestinationContent`). -/
def lineAtOrEmpty (docLines : List String) (i : Nat) : String :=
  match docLines.get? i with
  | some l => l
  | none => ""

/-- The `for (let i = startLine; i <= endLine; i++)` accumulation of
`LinkDecorator.getDestinationContent`, with the iteration count made
explicit: `n` remaining iterations starting at line `i`. -/
def lineRangeContentAux (docLines : List String) : Nat → Int → String
  | 0, _ => ""
  | n + 1, i =>
      lineAtOrEmpty docLines i.toNat ++ "\n" ++
        lineRangeContentAux docLines n (i + 1)

/-- `LinkDecorator.getDestinationContent`: clip the window to
`[max(0, target - linesBefore), min(lineCount - 1, target + linesAfter)]`
and concatenate those lines, each followed by a newline. -/
def getDestinationContent (docLines : List String) (targetLine : Nat)
    (cfg : PreviewConfig) : String :=
  let startLine : Int := max 0 ((targetLine : Int) - cfg.linesBefore)
  let endLine : Int :=
    min ((docLines.length : Int) - 1) ((targetLine : Int) + cfg.linesAfter)
  lineRangeContentAux docLines (endLine + 1 - startLine).toNat startLine

/-! ### Definitions taken from the specification's wording -/

/-- Concatenation of lines, each followed by a newline, as the spec describes
the preview excerpt. -/
def joinLines : List String → String
  | [] => ""
  | l :: ls => l ++ "\n" ++ joinLines ls

/-- The preview window exactly as claim C9 words it: the lines from
`max(0, targetLine - linesBefore)` through
`min(lastLine, targetLine + linesAfter)` inclusive. -/
def previewWindowSpec (docLines : List String) (targetLine : Nat)
    (cfg : PreviewConfig) : List String :=
  let s := (max 0 ((targetLine : Int) - cfg.linesBefore)).toNat
  let e := (min ((docLines.length : Int) - 1)
    ((targetLine : Int) + cfg.linesAfter)).toNat
  (docLines.drop s).take (e + 1 - s)

/-- The per-line destination contribution exactly as claim C4 words it:
the key is capture-group-1 *if present* (even when the group captured the
empty string), otherwise the whole match, trimmed; nothing is contributed
when the trimmed value is empty. -/
def lineContribClaimed (compile : RegexCompiler) (pat : String)
    (filePath : String) (lineIndex : Nat) (line : String) :
    List (String × Loc) :=
  match compile pat with
  | none => []
  | some exec =>
      match exec line with
      | none => []
      | some m =>
          let key := jsTrim (m.group1.getD m.matched)
          if key ≠ "" then
            [(key,
              { path := filePath, line := lineIndex, startCol := 0,
                endCol := line.length })]
          else []

/-- The per-line destination contribution as amended: the whole match is
also used when group 1 captured the empty string, because `match[1] ||
match[0]` falls back on any falsy value. -/
def lineContribAmended (compile : RegexCompiler) (pat : String)
    (filePath : String) (lineIndex : Nat) (line : String) :
    List (String × Loc) :=
  match compile pat with
  | none => []
  | some exec =>
      match exec line with
      | none => []
      | some m =>
          let key := jsTrim (jsOrCapture m.group1 m.matched)
          if key ≠ "" then
            [(key,
              { path := filePath, line := lineIndex, startCol := 0,
                endCol := line.length })]
          else []

/-! ### Concrete instances used by counterexamples and witnesses -/

/-- A concrete key that is inserted by witnesses. -/
def keyA : String := "a"

/-- A concrete key that is never inserted. -/
def keyB : String := "b"

/-- A concrete location value. -/
def locF : Loc := { path := "f.yaml", line := 0, startCol := 0, endCol := 1 }

/-- A concrete operation sequence: one insertion, then a clear. -/
def opsC10 : List IndexOp := [IndexOp.add keyA locF, IndexOp.clear]

/-- A destination pattern that is also the text it matches. -/
def patKey : String := "key"

/-- A concrete `includes` glob for destination files. -/
def globTxt : String := "glob.txt"

/-- Path of the concrete destination file. -/
def pathA : String := "ws/a.txt"

/-- The location the indexer produces for line 0 of that file: full-line
span from column 0 to the line length of `"key"`. -/
def locKey : Loc := { path := pathA, line := 0, startCol := 0, endCol := 3 }

/-- The destination file: a single line reading `"key"`. -/
def fileKey : FileData := { path := pathA, lines := some [patKey] }

/-- A workspace folder whose glob resolver yields `fileKey` for `globTxt`
and nothing otherwise. -/
def globA : String → Option (List FileData) := fun g =>
  if g = globTxt then some [fileKey] else some []

/-- Exec function of the pattern `patKey`: first match of the line `"key"`
is the whole line, with no capture group. -/
def execKey : String → Option JsMatch := fun line =>
  if line = patKey then some { matched := patKey, group1 := none } else none

/-- Regex compiler knowing only the pattern `patKey`. -/
def compC2 : RegexCompiler := fun p =>
  if p = patKey then some execKey else none

/-- A well-formed destination descriptor for the concrete file. -/
def destC2 : DestConf := { includes := globTxt, patterns := patKey, preview := none }

/-- A rule with two destination descriptors that both match `fileKey`, so
the same file is indexed twice. -/
def ruleC2 : Rule :=
  { fromConfs := none, toConfs := some [destC2, destC2], destinations := none }

/-- Environment with one workspace folder containing the one file. -/
def envC2 : Env := { workspaceFolders := some [globA], compile := compC2 }

/-- A destination glob of the documented configuration schema. -/
def yamlGlob : String := "src/*.yaml"

/-- A saved file path that matches `yamlGlob`. -/
def savedFile : String := "ws/src/a.yaml"

/-- A concrete `isFileMatchGlob`: `savedFile` matches `yamlGlob`, nothing
else matches anything. -/
def mgC1 : String → String → Bool := fun f g =>
  f = savedFile && g = yamlGlob

/-- A destination pattern of the documented example configuration. -/
def idPat : String := "id: (.*)"

/-- A schema-conformant destination descriptor. -/
def destYaml : DestConf := { includes := yamlGlob, patterns := idPat, preview := none }

/-- A schema-conformant rule: destination descriptors live in `to`; the
legacy `destinations` field is absent. -/
def ruleC1 : Rule :=
  { fromConfs := some [], toConfs := some [destYaml], destinations := none }

/-- The trimmed key stored in the index for claim C3. -/
def keyAbc : String := "abc"

/-- The raw captured text of the source occurrence: the key surrounded by
whitespace. -/
def spacedAbc : String := " abc "

/-- Path of the indexed destination for claim C3. -/
def pathD : String := "ws/d.yaml"

/-- The indexed destination location for claim C3. -/
def locAbc : Loc := { path := pathD, line := 0, startCol := 0, endCol := 5 }

/-- An index holding the trimmed key `"abc"` (as `processFile` would have
stored it after trimming a destination match). -/
def idx3 : LinkIndex := addToIndex [] keyAbc { oid := 0, val := locAbc }

/-- The source pattern whose capture group grabs `" abc "`. -/
def srcPat : String := "x( abc )x"

/-- The source document text. -/
def docText : String := "x abc x"

/-- Global exec of `srcPat` over the document text: one match spanning the
whole text, group 1 capturing `" abc "`. -/
def execAllSrc : String → List SrcMatch := fun t =>
  if t = docText then
    [{ index := 0, matched := docText, group1 := some spacedAbc }]
  else []

/-- Global regex compiler knowing only `srcPat`. -/
def compG3 : GlobalRegexCompiler := fun p =>
  if p = srcPat then some execAllSrc else none

/-- A glob matcher under which every file matches every glob. -/
def mgTrue : String → String → Bool := fun _ _ => true

/-- Decorator environment for claim C3. -/
def denv3 : DecoratorEnv := { matchGlob := mgTrue, compileG := compG3 }

/-- Source glob of the C3 rule. -/
def mdGlob : String := "doc/*.md"

/-- Source descriptor of the C3 rule. -/
def srcConf3 : SrcConf := { includes := mdGlob, patterns := srcPat }

/-- The C3 rule. -/
def rule3 : Rule :=
  { fromConfs := some [srcConf3], toConfs := some [], destinations := none }

/-- The C3 source document. -/
def doc3 : Document := { fileName := "ws/doc/n.md", text := docText }

/-- The single resolution result the decorator produces on `doc3`: a broken
link, although the index holds the trimmed key. -/
def result3 : LinkResult :=
  { src := { startOff := 0, endOff := 7, linkText := spacedAbc }, dest := none }

/-- The destination pattern of claim C4's counterexample, `a(b*)c`: on the
line `"ac"` it matches with group 1 capturing the empty string. -/
def patC4 : String := "a(b*)c"

/-- The line `"ac"`. -/
def lineAC : String := "ac"

/-- The empty string captured by group 1. -/
def emptyCapture : String := ""

/-- File path for the C4 counterexample. -/
def fileB : String := "ws/b.txt"

/-- Exec function of `patC4`: on `"ac"`, `match[0] = "ac"` and
`match[1] = ""` (the group participated but captured nothing). -/
def execC4 : String → Option JsMatch := fun line =>
  if line = lineAC then
    some { matched := lineAC, group1 := some emptyCapture }
  else none

/-- Regex compiler knowing only `patC4`. -/
def compC4 : RegexCompiler := fun p =>
  if p = patC4 then some execC4 else none

/-- A regex compiler that always throws. -/
def compNone : RegexCompiler := fun _ => none

/-- Environment with no workspace open. -/
def envNoWs : Env := { workspaceFolders := none, compile := compNone }

/-- A non-empty index present before a rebuild. -/
def idxPre : LinkIndex := addToIndex [] keyA { oid := 0, val := locF }

/-- Path of an unreadable file. -/
def pathB : String := "ws/c.txt"

/-- An unreadable file (`fs.readFileSync` throws). -/
def fileUnreadable : FileData := { path := pathB, lines := none }

/-- A descriptor whose pattern `compC2` does not know (its compilation
throws). -/
def destBad : DestConf :=
  { includes := globTxt, patterns := idPat, preview := none }

/-- A prior indexer state for the C8 witness. -/
def s0c : IndexState := { index := idxPre, nextOid := 5 }

/-- An insertion prefix drawn from the C2 rebuild generation. -/
def addsC8 : List (String × Loc) := [(patKey, locKey)]

/-- A one-line destination document for the C9 witness. -/
def docLines9 : List String := [patKey]

/-! ### Helper lemmas -/

/-- `hasDestination` agrees with non-emptiness of `getDestinations` on every
index value, reachable or not. -/
theorem hasDestination_iff_getDestinations_ne_nil (m : LinkIndex) (k : String) :
    hasDestination m k = true ↔ getDestinations m k ≠ [] := by
  unfold hasDestination getDestinations
  cases h : mapHas m k with
  | false => simp
  | true =>
      simp only [Bool.true_and, if_pos]
      cases hg : (mapGet m k).getD [] with
      | nil => simp
      | cons a l => simp

/-- A key absent from the map yields the empty destination list. -/
theorem getDestinations_of_not_has (m : LinkIndex) (k : String)
    (h : mapHas m k = false) : getDestinations m k = [] := by
  unfold getDestinations
  simp [h]

/-- A rebuild's result does not depend on the index contents found before
the clear. -/
theorem rebuildIndex_ignores_prior (env : Env) (rules : List Rule)
    (i1 i2 : LinkIndex) :
    rebuildIndex env rules i1 = rebuildIndex env rules i2 := by
  unfold rebuildIndex clearIndex
  cases hw : env.workspaceFolders with
  | none => rfl
  | some l => cases l with
    | nil => rfl
    | cons f fs => rfl

/-- A flatMap over a function that is empty on every element is empty. -/
theorem flatMap_eq_nil_of {α β : Type} (l : List α) (f : α → List β)
    (h : ∀ x ∈ l, f x = []) : l.flatMap f = [] := by
  induction l with
  | nil => rfl
  | cons a t ih =>
      rw [List.flatMap_cons, h a (List.mem_cons_self a t), List.nil_append]
      exact ih (fun x hx => h x (List.mem_cons_of_mem a hx))

/-- An unreadable file contributes no entries. -/
theorem processFile_unreadable (compile : RegexCompiler) (f : FileData)
    (pat : String) (h : f.lines = none) : processFile compile f pat = [] := by
  unfold processFile
  rw [h]

/-- A destination pattern whose compilation throws contributes no entries
for any file: the per-line catch skips every line. -/
theorem processFile_compile_none (compile : RegexCompiler) (pat : String)
    (h : compile pat = none) (f : FileData) :
    processFile compile f pat = [] := by
  unfold processFile
  cases hl : f.lines with
  | none => rfl
  | some lines =>
      apply flatMap_eq_nil_of
      intro x hx
      unfold lineContrib
      rw [h]

/-- `destEntries` of a descriptor whose pattern does not compile is empty:
the files are still globbed and read, but no line matches. -/
theorem destEntries_compile_none (env : Env) (d : DestConf)
    (h : env.compile d.patterns = none) : destEntries env d = [] := by
  unfold destEntries
  cases hw : env.workspaceFolders with
  | none => rfl
  | some folders =>
      apply flatMap_eq_nil_of
      intro f hf
      exact processFile_compile_none env.compile d.patterns h f

/-- Removing a descriptor whose pattern does not compile from a rule's
destination list leaves the rule's entries unchanged. -/
theorem ruleEntries_skip_bad (env : Env) (fc : Option (List SrcConf))
    (dst : Option (List DestConf)) (ds1 ds2 : List DestConf) (d : DestConf)
    (h : env.compile d.patterns = none) :
    ruleEntries env
      { fromConfs := fc, toConfs := some (ds1 ++ d :: ds2),
        destinations := dst } =
    ruleEntries env
      { fromConfs := fc, toConfs := some (ds1 ++ ds2),
        destinations := dst } := by
  unfold ruleEntries
  simp only
  rw [List.flatMap_append, List.flatMap_append, List.flatMap_cons]
  have hd : (if d.includes = "" ∨ d.patterns = "" then []
      else destEntries env d) = [] := by
    split
    · rfl
    · exact destEntries_compile_none env d h
  rw [hd, List.nil_append]

/-- Membership in the entry list of an index, unfolded. -/
theorem mem_indexEntries_iff (m : LinkIndex) (e : String × Loc) :
    e ∈ indexEntries m ↔
      ∃ p ∈ m, p.1 = e.1 ∧ ∃ o ∈ p.2, o.val = e.2 := by
  unfold indexEntries
  rw [List.mem_flatMap]
  constructor
  · rintro ⟨p, hp, hep⟩
    rw [List.mem_map] at hep
    obtain ⟨o, ho, hoe⟩ := hep
    refine ⟨p, hp, ?_, o, ho, ?_⟩
    · rw [← hoe]
    · rw [← hoe]
  · rintro ⟨p, hp, h1, o, ho, h2⟩
    refine ⟨p, hp, ?_⟩
    rw [List.mem_map]
    refine ⟨o, ho, ?_⟩
    cases e with
    | mk e1 e2 =>
        simp only at h1 h2
        rw [h1, h2]

/-- Entries of `mapSet m k v` come from `m` or carry key `k` and a value
drawn from `v`. -/
theorem mem_indexEntries_mapSet (m : LinkIndex) (k : String)
    (v : List LocObj) (e : String × Loc)
    (he : e ∈ indexEntries (mapSet m k v)) :
    e ∈ indexEntries m ∨ (e.1 = k ∧ e.2 ∈ v.map LocObj.val) := by
  unfold mapSet at he
  by_cases h : mapHas m k
  · rw [if_pos h] at he
    rw [mem_indexEntries_iff] at he
    obtain ⟨p, hp, h1, o, ho, h2⟩ := he
    rw [List.mem_map] at hp
    obtain ⟨q, hq, hfq⟩ := hp
    by_cases hqk : q.1 = k
    · rw [if_pos hqk] at hfq
      right
      constructor
      · rw [← h1, ← hfq]
      · rw [List.mem_map]
        refine ⟨o, ?_, h2⟩
        rw [← hfq] at ho
        exact ho
    · rw [if_neg hqk] at hfq
      left
      rw [mem_indexEntries_iff]
      refine ⟨q, hq, ?_, o, ?_, h2⟩
      · rw [hfq]; exact h1
      · rw [hfq]; exact ho
  · rw [if_neg h] at he
    unfold indexEntries at he
    rw [List.flatMap_append] at he
    rcases List.mem_append.mp he with h1 | h2
    · left; exact h1
    · right
      rw [List.flatMap_cons, List.flatMap_nil, List.append_nil] at h2
      rw [List.mem_map] at h2
      obtain ⟨o, ho, hoe⟩ := h2
      constructor
      · rw [← hoe]
      · rw [List.mem_map]
        refine ⟨o, ho, ?_⟩
        rw [← hoe]

/-- An element added to a JS set was already there or is the new object. -/
theorem mem_setAdd (s : List LocObj) (o x : LocObj) (h : x ∈ setAdd s o) :
    x ∈ s ∨ x = o := by
  unfold setAdd at h
  split at h
  · left; exact h
  · rcases List.mem_append.mp h with h1 | h2
    · left; exact h1
    · right; simpa using h2

/-- Every element of the set bound to key `k` yields an entry of the map. -/
theorem mapGet_entries (m : LinkIndex) (k : String) (s : List LocObj)
    (hs : mapGet m k = some s) (x : LocObj) (hx : x ∈ s) :
    (k, x.val) ∈ indexEntries m := by
  unfold mapGet at hs
  obtain ⟨p, hp, hps⟩ : ∃ p, m.find? (fun p => p.1 = k) = some p ∧ p.2 = s := by
    cases hf : m.find? (fun p => p.1 = k) with
    | none => rw [hf] at hs; simp at hs
    | some p =>
        rw [hf] at hs
        simp only [Option.map_some', Option.some.injEq] at hs
        exact ⟨p, rfl, hs⟩
  have hmem := List.mem_of_find?_eq_some hp
  have hkey : p.1 = k := by
    have := List.find?_some hp
    simpa using this
  rw [mem_indexEntries_iff]
  refine ⟨p, hmem, hkey, x, ?_, rfl⟩
  rw [hps]
  exact hx

/-- Entries present after `addToIndex m k o` were present before or are
exactly the inserted `(k, o.val)`. -/
theorem mem_indexEntries_addToIndex (m : LinkIndex) (k : String)
    (o : LocObj) (e : String × Loc)
    (he : e ∈ indexEntries (addToIndex m k o)) :
    e ∈ indexEntries m ∨ e = (k, o.val) := by
  have key : ∀ m1 : LinkIndex,
      (∀ e2 : String × Loc, e2 ∈ indexEntries m1 → e2 ∈ indexEntries m) →
      e ∈ indexEntries (mapSet m1 k (setAdd ((mapGet m1 k).getD []) o)) →
      e ∈ indexEntries m ∨ e = (k, o.val) := by
    intro m1 hsub he1
    rcases mem_indexEntries_mapSet m1 k _ e he1 with h1 | h2
    · left; exact hsub e h1
    · obtain ⟨hek, hev⟩ := h2
      rw [List.mem_map] at hev
      obtain ⟨y, hy, hyv⟩ := hev
      rcases mem_setAdd _ o y hy with hys | hyo
      · left
        apply hsub
        have hm1 : (k, y.val) ∈ indexEntries m1 := by
          cases hg : mapGet m1 k with
          | none =>
              rw [hg] at hys
              simp at hys
          | some s =>
              refine mapGet_entries m1 k s hg y ?_
              rw [hg] at hys
              simpa using hys
        have he' : e = (k, y.val) := by
          cases e with
          | mk e1 e2 =>
              simp only at hek hyv
              rw [hek, hyv]
        rw [he']
        exact hm1
      · right
        cases e with
        | mk e1 e2 =>
            simp only at hek hyv
            rw [hyo] at hyv
            rw [hek, hyv]
  unfold addToIndex at he
  by_cases h : mapHas m k
  · refine key m (fun _ h2 => h2) ?_
    simpa [h] using he
  · refine key (mapSet m k []) ?_ ?_
    · intro e2 he2
      rcases mem_indexEntries_mapSet m k [] e2 he2 with h1 | h2
      · exact h1
      · simp at h2
    · simpa [h] using he

/-- Applying a list of insertions whose entries are all drawn from a
generation `gen` keeps the index's entries inside `gen`, provided they
started inside `gen`. -/
theorem applyOps_adds_subset (gen : List (String × Loc)) :
    ∀ (adds : List (String × Loc)) (s : IndexState),
      (∀ a ∈ adds, a ∈ gen) →
      (∀ e ∈ indexEntries s.index, e ∈ gen) →
      ∀ e ∈ indexEntries
          (applyOps s (adds.map (fun a => IndexOp.add a.1 a.2))).index,
        e ∈ gen := by
  intro adds
  induction adds with
  | nil => intro s _ hs e he; exact hs e he
  | cons a t ih =>
      intro s ha hs e he
      rw [List.map_cons] at he
      refine ih (applyOp s (IndexOp.add a.1 a.2))
        (fun x hx => ha x (List.mem_cons_of_mem a hx)) ?_ e he
      intro e2 he2
      rcases mem_indexEntries_addToIndex s.index a.1 _ e2 he2 with h1 | h2
      · exact hs e2 h1
      · rw [h2]
        simpa using ha a (List.mem_cons_self a t)

/-- The mutation trace of insertions computes `buildIndexFrom`. -/
theorem applyOps_add_eq_buildIndexFrom :
    ∀ (entries : List (String × Loc)) (n : Nat) (idx : LinkIndex),
      (applyOps { index := idx, nextOid := n }
        (entries.map (fun a => IndexOp.add a.1 a.2))).index =
      buildIndexFrom entries n idx := by
  intro entries
  induction entries with
  | nil => intro n idx; rfl
  | cons a t ih =>
      intro n idx
      rw [List.map_cons]
      show (applyOps (applyOp { index := idx, nextOid := n }
        (IndexOp.add a.1 a.2)) (t.map (fun a => IndexOp.add a.1 a.2))).index =
        buildIndexFrom (a :: t) n idx
      rw [buildIndexFrom]
      exact ih (n + 1) (addToIndex idx a.1 { oid := n, val := a.2 })

/-- The clipped line loop equals the joined slice of the line list. -/
theorem lineRangeContentAux_eq_joinLines (docLines : List String) :
    ∀ (n : Nat) (i : Int), 0 ≤ i → i.toNat + n ≤ docLines.length →
      lineRangeContentAux docLines n i =
        joinLines ((docLines.drop i.toNat).take n) := by
  intro n
  induction n with
  | zero =>
      intro i _ _
      simp [lineRangeContentAux, joinLines]
  | succ k ih =>
      intro i hi hlen
      have hlt : i.toNat < docLines.length := by omega
      have hdrop : docLines.drop i.toNat =
          docLines[i.toNat] :: docLines.drop (i.toNat + 1) :=
        List.drop_eq_getElem_cons hlt
      have hnext : (i + 1).toNat = i.toNat + 1 := by omega
      have hla : lineAtOrEmpty docLines i.toNat = docLines[i.toNat] := by
        unfold lineAtOrEmpty
        rw [List.get?_eq_getElem?, List.getElem?_eq_getElem hlt]
      rw [lineRangeContentAux, hla, hdrop, List.take_succ_cons, joinLines]
      rw [ih (i + 1) (by omega) (by omega), hnext]

/-! ### Claim theorems -/

/-- Claim C9: for every destination line of the document and preview
configuration with non-negative `linesBefore` and `linesAfter`, the
retrieved content is exactly the lines from
`max(0, targetLine - linesBefore)` through
`min(lastLine, targetLine + linesAfter)` inclusive, each followed by a
newline; the clipped bounds are never negative, never past the last line,
and the window is non-empty — the total function raises no error. -/
theorem C9_preview_window (docLines : List String) (targetLine : Nat)
    (cfg : PreviewConfig) (hb : 0 ≤ cfg.linesBefore) (ha : 0 ≤ cfg.linesAfter)
    (ht : targetLine < docLines.length) :
    getDestinationContent docLines targetLine cfg =
      joinLines (previewWindowSpec docLines targetLine cfg) ∧
    0 ≤ max 0 ((targetLine : Int) - cfg.linesBefore) ∧
    min ((docLines.length : Int) - 1) ((targetLine : Int) + cfg.linesAfter) ≤
      (docLines.length : Int) - 1 ∧
    max 0 ((targetLine : Int) - cfg.linesBefore) ≤
      min ((docLines.length : Int) - 1) ((targetLine : Int) + cfg.linesAfter) := by
  have htl : (targetLine : Int) < (docLines.length : Int) := by exact_mod_cast ht
  refine ⟨?_, le_max_left 0 _, min_le_left _ _, by omega⟩
  have h0s : (0 : Int) ≤ max 0 ((targetLine : Int) - cfg.linesBefore) :=
    le_max_left 0 _
  have hgoal := lineRangeContentAux_eq_joinLines docLines
    ((min ((docLines.length : Int) - 1) ((targetLine : Int) + cfg.linesAfter)
        + 1 - max 0 ((targetLine : Int) - cfg.linesBefore)).toNat)
    (max 0 ((targetLine : Int) - cfg.linesBefore)) h0s (by omega)
  unfold getDestinationContent previewWindowSpec
  simp only
  rw [hgoal]
  have htake :
      (min ((docLines.length : Int) - 1) ((targetLine : Int) + cfg.linesAfter)
          + 1 - max 0 ((targetLine : Int) - cfg.linesBefore)).toNat =
      (min ((docLines.length : Int) - 1)
          ((targetLine : Int) + cfg.linesAfter)).toNat + 1 -
        (max 0 ((targetLine : Int) - cfg.linesBefore)).toNat := by
    omega
  rw [htake]

/-- Claim C6: rebuild errors are isolated.  An unreadable file contributes
zero entries; a destination pattern whose compilation throws contributes
zero entries for every file; and removing such a malformed descriptor from
any rule — surrounded by arbitrary sibling descriptors and arbitrary sibling
rules — leaves the whole rebuild's entry list unchanged, so sibling
descriptors and files are indexed exactly as they would be without it, and
the rebuild (a total function) never aborts. -/
theorem C6_descriptor_isolation :
    (∀ (compile : RegexCompiler) (f : FileData) (pat : String),
       f.lines = none → processFile compile f pat = []) ∧
    (∀ (compile : RegexCompiler) (pat : String),
       compile pat = none → ∀ f : FileData, processFile compile f pat = []) ∧
    (∀ (env : Env) (rs1 rs2 : List Rule) (fc : Option (List SrcConf))
       (dst : Option (List DestConf)) (ds1 ds2 : List DestConf) (d : DestConf),
       env.compile d.patterns = none →
       rebuildEntries env
         (rs1 ++ { fromConfs := fc, toConfs := some (ds1 ++ d :: ds2),
                   destinations := dst } :: rs2) =
       rebuildEntries env
         (rs1 ++ { fromConfs := fc, toConfs := some (ds1 ++ ds2),
                   destinations := dst } :: rs2)) := by
  refine ⟨processFile_unreadable, processFile_compile_none, ?_⟩
  intro env rs1 rs2 fc dst ds1 ds2 d h
  unfold rebuildEntries
  rw [List.flatMap_append, List.flatMap_append, List.flatMap_cons,
    List.flatMap_cons]
  rw [ruleEntries_skip_bad env fc dst ds1 ds2 d h]

/-- Witness for C6 at concrete inputs: an unreadable file, an
always-throwing compiler, and a malformed descriptor next to `destC2`. -/
theorem C6_descriptor_isolation_witness :
    processFile compC2 fileUnreadable patKey = [] ∧
    processFile compNone fileKey patKey = [] ∧
    rebuildEntries envC2
      ([] ++ { fromConfs := none, toConfs := some ([] ++ destBad :: [destC2]),
               destinations := none } :: []) =
    rebuildEntries envC2
      ([] ++ { fromConfs := none, toConfs := some ([] ++ [destC2]),
               destinations := none } :: []) :=
  ⟨C6_descriptor_isolation.1 compC2 fileUnreadable patKey rfl,
   C6_descriptor_isolation.2.1 compNone patKey rfl fileKey,
   C6_descriptor_isolation.2.2 envC2 [] [] none none [] [destC2] destBad rfl⟩

/-- Claim C1 (code bug): the save handler computes its destination-file
test from the legacy `destinations` field instead of `to`.  At a
configuration written against the documented schema (`ruleC1`), the saved
file matches a destination descriptor glob across the rules — yet the save
triggers no rebuild.  Document edits and active-editor switches trigger
only a decoration refresh, as claimed. -/
theorem C1_save_never_rebuilds :
    fileMatchesSomeDestGlob mgC1 [ruleC1] savedFile = true ∧
    controllerAction mgC1 [ruleC1] (ControllerEvent.save savedFile) =
      ControllerAction.noAction ∧
    controllerAction mgC1 [ruleC1] (ControllerEvent.docChange true) =
      ControllerAction.refreshDecorations ∧
    controllerAction mgC1 [ruleC1] (ControllerEvent.activeEditorChange true) =
      ControllerAction.refreshDecorations := by
  refine ⟨by decide, by decide, by decide, by decide⟩

/-- Claim C2 (code bug): when the same file is matched by two destination
descriptors, the rebuilt index stores the *identical* location twice —
`Set<vscode.Location>` deduplicates by object identity and every insertion
allocates a fresh object, so set-of-values semantics fails.  Rebuilding is
nevertheless insensitive to the prior index contents, so rebuilding twice
with unchanged files and rules yields identical contents. -/
theorem C2_duplicate_locations :
    (getDestinations (rebuildIndex envC2 [ruleC2] []) patKey).map LocObj.val =
      [locKey, locKey] ∧
    (getDestinations (rebuildIndex envC2 [ruleC2] []) patKey).length = 2 ∧
    ∀ (env : Env) (rules : List Rule) (i1 i2 : LinkIndex),
      rebuildIndex env rules i1 = rebuildIndex env rules i2 :=
  ⟨by decide, by decide, rebuildIndex_ignores_prior⟩

/-- Claim C5 counterexample: with no workspace open, `rebuildIndex` does
*not* leave the index unchanged — the unconditional clear runs before the
workspace check, wiping the previously indexed entries. -/
theorem C5_counterexample :
    rebuildIndex envNoWs [] idxPre = [] ∧ idxPre ≠ [] := by
  refine ⟨by decide, by decide⟩

/-- Claim C5 as amended: with no workspace folder open,
`LinkIndexer.rebuildIndex` clears the index and stops — it adds no entries
and raises no error, leaving the empty index; the `extension.ts` wrapper
additionally returns before invoking the indexer, leaving the index
untouched along that path. -/
theorem C5_rebuild_no_workspace (env : Env) (rules : List Rule)
    (idx : LinkIndex) (h : env.workspaceFolders = none) :
    rebuildIndex env rules idx = [] ∧
    controllerRebuild env rules idx = idx := by
  constructor
  · unfold rebuildIndex clearIndex
    rw [h]
  · unfold controllerRebuild
    rw [h]

/-- Witness for C5 at the concrete no-workspace environment. -/
theorem C5_rebuild_no_workspace_witness :
    rebuildIndex envNoWs [] idxPre = [] ∧
    controllerRebuild envNoWs [] idxPre = idxPre :=
  C5_rebuild_no_workspace envNoWs [] idxPre rfl

/-- Claim C3 counterexample: the decorator queries the index with the raw
captured text, not with its trimmed form.  With the trimmed key `"abc"` in
the index and a source capture of `" abc "`, the single resolution result
is a broken link even though the captured text differs from the indexed key
only by surrounding whitespace. -/
theorem C3_counterexample :
    jsTrim spacedAbc = keyAbc ∧
    hasDestination idx3 keyAbc = true ∧
    findAllLinkMatches denv3 idx3 [rule3] doc3 = [result3] ∧
    result3.dest = none := by
  refine ⟨by decide, by decide, by decide, by decide⟩

/-- Claim C3 as amended: for every source match produced by
`findAllLinkMatches`, the key used to query the index is the captured text
exactly as captured (no trimming is applied on the source side), so a match
resolves to an absent destination precisely when its raw captured text has
no entries — text that differs from an indexed key only by surrounding
whitespace does not resolve. -/
theorem C3_query_key_untrimmed (denv : DecoratorEnv) (idx : LinkIndex)
    (rules : List Rule) (doc : Document) (r : LinkResult)
    (hr : r ∈ findAllLinkMatches denv idx rules doc) :
    r.dest = none ↔ getDestinations idx r.src.linkText = [] := by
  unfold findAllLinkMatches at hr
  rw [List.mem_flatMap] at hr
  obtain ⟨rf, hrf, hmem⟩ := hr
  cases hc : denv.compileG rf.2.patterns with
  | none => rw [hc] at hmem; simp at hmem
  | some execAll =>
      rw [hc] at hmem
      rw [List.mem_map] at hmem
      obtain ⟨m, hm, hrm⟩ := hmem
      subst hrm
      simp only
      unfold findDestination
      cases hg : getDestinations idx (jsOrCapture m.group1 m.matched) with
      | nil => simp [hg]
      | cons a l => simp [hg]

/-- Witness for the amended C3 at the concrete broken-link result. -/
theorem C3_query_key_untrimmed_witness :
    result3 ∈ findAllLinkMatches denv3 idx3 [rule3] doc3 ∧
    (result3.dest = none ↔ getDestinations idx3 result3.src.linkText = []) :=
  ⟨by decide,
   C3_query_key_untrimmed denv3 idx3 [rule3] doc3 result3 (by decide)⟩

/-- Claim C4 counterexample: on the line `"ac"` with destination pattern
`a(b*)c`, capture group 1 participates and captures the empty string.  The
claim (`capture-group-1 if present, otherwise the whole match`) yields an
empty key, hence no contribution — but `match[1] || match[0]` falls back on
the falsy empty capture, so the code contributes the whole match `"ac"`. -/
theorem C4_counterexample :
    lineContrib compC4 patC4 fileB 0 lineAC =
      [(lineAC, { path := fileB, line := 0, startCol := 0, endCol := 2 })] ∧
    lineContribClaimed compC4 patC4 fileB 0 lineAC = [] ∧
    lineContrib compC4 patC4 fileB 0 lineAC ≠
      lineContribClaimed compC4 patC4 fileB 0 lineAC := by
  refine ⟨by decide, by decide, by decide⟩

/-- Claim C4 as amended: for every line of every scanned destination file,
the destination regex contributes at most one entry (first match per line),
and the contribution is exactly the amended key rule — capture group 1 when
it captured a non-empty string, otherwise the whole match — trimmed, with a
location spanning the full line from column 0 to the line's length, and
nothing when the trimmed value is empty. -/
theorem C4_line_contribution (compile : RegexCompiler)
    (pat filePath : String) (lineIndex : Nat) (line : String) :
    lineContrib compile pat filePath lineIndex line =
      lineContribAmended compile pat filePath lineIndex line ∧
    (lineContrib compile pat filePath lineIndex line).length ≤ 1 := by
  constructor
  · unfold lineContrib lineContribAmended
    cases compile pat with
    | none => rfl
    | some exec =>
        simp only
        cases exec line with
        | none => rfl
        | some m =>
            by_cases h : jsTrim (jsOrCapture m.group1 m.matched) = ""
            · have h0 : ¬(jsOrCapture m.group1 m.matched ≠ "" ∧
                  jsTrim (jsOrCapture m.group1 m.matched) ≠ "") := by
                intro hc
                exact hc.2 h
              simp [h, h0]
            · have h0 : jsOrCapture m.group1 m.matched ≠ "" := by
                intro he
                apply h
                rw [he]
                rfl
              simp [h, h0]
  · unfold lineContrib
    cases compile pat with
    | none => simp
    | some exec =>
        simp only
        cases exec line with
        | none => simp
        | some m =>
            simp only
            split
            · simp
            · simp

/-- Claim C7: a source key with zero entries in the index resolves to an
absent destination (`findDestination` returns `none`, classifying the match
as a broken link), and `getDestinations` of an absent key returns the empty
list rather than failing. -/
theorem C7_broken_link :
    (∀ (mg : String → String → Bool) (idx : LinkIndex) (linkText : String)
       (destConfs : List DestConf),
       getDestinations idx linkText = [] →
       findDestination mg idx linkText destConfs = none) ∧
    (∀ (idx : LinkIndex) (k : String),
       mapHas idx k = false → getDestinations idx k = []) := by
  constructor
  · intro mg idx linkText destConfs h
    unfold findDestination
    rw [h]
  · intro idx k h
    exact getDestinations_of_not_has idx k h

/-- Witness for C7 at a concrete empty index and key. -/
theorem C7_broken_link_witness :
    findDestination mgTrue [] keyB [] = none ∧ getDestinations idxPre keyB = [] :=
  ⟨C7_broken_link.1 mgTrue [] keyB [] (by decide),
   C7_broken_link.2 idxPre keyB (by decide)⟩

/-- Witness for C9 at a one-line document with the default configuration
(`linesBefore = 2`): the window is clipped to start at line 0. -/
theorem C9_preview_window_witness :
    getDestinationContent docLines9 0 defaultPreviewConfig =
      joinLines (previewWindowSpec docLines9 0 defaultPreviewConfig) ∧
    0 ≤ max 0 (((0 : Nat) : Int) - defaultPreviewConfig.linesBefore) ∧
    min ((docLines9.length : Int) - 1)
        (((0 : Nat) : Int) + defaultPreviewConfig.linesAfter) ≤
      (docLines9.length : Int) - 1 ∧
    max 0 (((0 : Nat) : Int) - defaultPreviewConfig.linesBefore) ≤
      min ((docLines9.length : Int) - 1)
        (((0 : Nat) : Int) + defaultPreviewConfig.linesAfter) :=
  C9_preview_window docLines9 0 defaultPreviewConfig (by decide) (by decide)
    (by decide)

/-- Claim C10: for every index state reachable by any sequence of
`clearIndex` and `addToIndex` operations, `hasDestination k` returns `true`
exactly when `getDestinations k` is non-empty, and `getDestinations` of an
absent key returns the empty list rather than failing. -/
theorem C10_hasDestination_iff (ops : List IndexOp) (k : String) :
    (hasDestination (applyOps initialState ops).index k = true ↔
      getDestinations (applyOps initialState ops).index k ≠ []) ∧
    (mapHas (applyOps initialState ops).index k = false →
      getDestinations (applyOps initialState ops).index k = []) :=
  ⟨hasDestination_iff_getDestinations_ne_nil _ k,
   getDestinations_of_not_has _ k⟩

/-- Claim C8: the clear is the first operation of every rebuild trace
(before any asynchronous fan-out), so an index state observed before any
rebuild operation is the fully-old index (`applyOps s [] = s`), and a state
observed after the clear plus any insertions drawn from the current rebuild
generation — in whatever interleaving order the fan-out produced them —
contains only entries of that generation, never a mix with entries of an
earlier generation.  The full trace computes exactly
`LinkIndexer.rebuildIndex`. -/
theorem C8_rebuild_generations (env : Env) (rules : List Rule)
    (s0 : IndexState) (adds : List (String × Loc))
    (h : ∀ a ∈ adds, a ∈ rebuildEntries env rules) :
    applyOps s0 [] = s0 ∧
    (rebuildOps env rules).head? = some IndexOp.clear ∧
    (∀ e ∈ indexEntries (applyOps s0
        (IndexOp.clear :: adds.map (fun a => IndexOp.add a.1 a.2))).index,
      e ∈ rebuildEntries env rules) ∧
    (∀ idx0 : LinkIndex,
      (applyOps { index := idx0, nextOid := 0 } (rebuildOps env rules)).index =
        rebuildIndex env rules idx0) := by
  refine ⟨rfl, ?_, ?_, ?_⟩
  · unfold rebuildOps
    cases hw : env.workspaceFolders with
    | none => rfl
    | some l => cases l with
      | nil => rfl
      | cons f fs => rfl
  · intro e he
    have h0 : ∀ e2 ∈ indexEntries (applyOp s0 IndexOp.clear).index,
        e2 ∈ rebuildEntries env rules := by
      intro e2 he2
      simp [applyOp, clearIndex, indexEntries] at he2
    exact applyOps_adds_subset (rebuildEntries env rules) adds
      (applyOp s0 IndexOp.clear) h h0 e he
  · intro idx0
    unfold rebuildOps rebuildIndex clearIndex
    cases hw : env.workspaceFolders with
    | none => rfl
    | some l => cases l with
      | nil => rfl
      | cons f fs =>
          exact applyOps_add_eq_buildIndexFrom (rebuildEntries env rules) 0 []

/-- Witness for C8 at the concrete C2 environment: a stale prior state, and
an insertion prefix drawn from that rebuild's generation. -/
theorem C8_rebuild_generations_witness :
    applyOps s0c [] = s0c ∧
    (rebuildOps envC2 [ruleC2]).head? = some IndexOp.clear ∧
    (∀ e ∈ indexEntries (applyOps s0c
        (IndexOp.clear :: addsC8.map (fun a => IndexOp.add a.1 a.2))).index,
      e ∈ rebuildEntries envC2 [ruleC2]) ∧
    (∀ idx0 : LinkIndex,
      (applyOps { index := idx0, nextOid := 0 }
        (rebuildOps envC2 [ruleC2])).index =
        rebuildIndex envC2 [ruleC2] idx0) :=
  C8_rebuild_generations envC2 [ruleC2] s0c addsC8 (by decide)

/-- Witness for C10 at a concrete operation sequence and key. -/
theorem C10_hasDestination_iff_witness :
    getDestinations (applyOps initialState opsC10).index keyA = [] :=
  (C10_hasDestination_iff opsC10 keyA).2 (by decide)

end RegexAnchor
